import Mathlib

/-!
Shallow embedding of `backend.py` from the risk-management repository.

Numbers are modelled by `ℚ` (the source computes with IEEE floats; the
algorithms are exact rational/linear computations apart from the two
external numeric routines `np.sqrt` and `scipy.stats.norm.ppf`, which are
threaded through as explicit function parameters `s` and `ppf`).
A pandas `Series` indexed by dates is a list of `(date, value)` pairs with
dates ascending; `None` in Python is `Option.none`.  Python exceptions are
the explicit error codomain `Except Err`.
-/

namespace RiskMgmt

/-- A pandas Series: ordered (date, value) pairs. -/
abbrev Series := List (ℕ × ℚ)

/-- Instrument kind: the source has classes Stock, Bond, Swap distinguished
only by their `fetch_data` implementation. -/
inductive Kind
  | stock
  | bond
  | swap
deriving DecidableEq, Repr

/-- FinancialInstrument: ticker, quantity, fetched price data (`None` before
a fetch), derived returns (`None` before `compute_returns`). -/
structure Instrument where
  kind : Kind
  ticker : String
  quantity : ℚ
  data : Option Series
  returns : Option Series
deriving DecidableEq, Repr

/-- Portfolio state: instruments in insertion order (Python dict order),
the joint return table keyed by ticker, the total-value history. -/
structure Portfolio where
  instruments : List Instrument
  returns : Option (List (String × Series))
  history : Series
deriving DecidableEq, Repr

/-- Error conditions: `noData` and `emptyReturns` are the two ValueErrors of
the spec's DataUnavailable class, `degenerateState` its DegenerateState;
`indexError` models pandas `.iloc[-1]` on an empty Series and
`attributeError` models `None.iloc` — Python exceptions that are not part
of the documented taxonomy. -/
inductive Err
  | noData
  | emptyReturns (ticker : String)
  | degenerateState
  | indexError
  | attributeError
deriving DecidableEq, Repr

/-- FinancialInstrument.__init__ : data and returns start as None. -/
def mkInstrument (k : Kind) (t : String) (q : ℚ) : Instrument :=
  ⟨k, t, q, none, none⟩

/-- Portfolio.__init__ : no instruments, returns None, history an empty Series. -/
def emptyPortfolio : Portfolio := ⟨[], none, []⟩

/-- fetch_data, dispatched on the instrument kind.  `provider` is the external
market-data collaborator (`yf.download`, with the try/except of Stock.fetch_data
absorbing failures into an empty series, per the source and §6 of the spec).
Bond.fetch_data and Swap.fetch_data are `pass`: the state is unchanged. -/
def fetchData (provider : String → ℕ → ℕ → Series) (startD endD : ℕ)
    (i : Instrument) : Instrument :=
  match i.kind with
  | .stock => { i with data := some (provider i.ticker startD endD) }
  | .bond => i
  | .swap => i

/-- FinancialInstrument.update_quantity. -/
def updateQuantity (i : Instrument) (delta : ℚ) : Instrument :=
  { i with quantity := i.quantity + delta }

/-- pandas `data.pct_change().dropna()`: simple return at each date after the
first; empty for series with fewer than two points. -/
def pctChange (l : Series) : Series :=
  (l.zip l.tail).map (fun pq => (pq.2.1, pq.2.2 / pq.1.2 - 1))

/-- FinancialInstrument.compute_returns: recompute `returns` from `data`;
an unfetched (`None`) series yields an empty return series. -/
def instComputeReturns (i : Instrument) : Instrument :=
  { i with returns := some (match i.data with
      | some l => pctChange l
      | none => []) }

/-- Portfolio.add_instrument: merge quantities on an existing ticker
(discarding the incoming price data), otherwise insert at the end. -/
def addInstrument (p : Portfolio) (inst : Instrument) : Portfolio :=
  if p.instruments.any (fun i => i.ticker == inst.ticker) then
    { p with instruments := p.instruments.map (fun i =>
        if i.ticker == inst.ticker then updateQuantity i inst.quantity else i) }
  else
    { p with instruments := p.instruments ++ [inst] }

/-- Portfolio.fetch_all_data. -/
def fetchAllData (provider : String → ℕ → ℕ → Series) (startD endD : ℕ)
    (p : Portfolio) : Portfolio :=
  { p with instruments := p.instruments.map (fetchData provider startD endD) }

/-- Index lookup in a Series. -/
def lookupDate (l : Series) (d : ℕ) : Option ℚ :=
  (l.find? (fun e => e.1 == d)).map (fun e => e.2)

/-- pandas `instrument.data * instrument.quantity` (pointwise scaling). -/
def scaleSeries (q : ℚ) (l : Series) : Series :=
  l.map (fun e => (e.1, e.2 * q))

/-- The sorted union of the date indexes of several series (the outer-join
index produced by `pd.concat(values, axis=1)`). -/
def unionDates (ls : List Series) : List ℕ :=
  List.insertionSort (· ≤ ·) ((ls.map (fun l => l.map Prod.fst)).flatten).dedup

/-- Row-wise sum over the union of dates, instruments without a value at a
date contributing nothing (pandas `sum(axis=1)` skipping NaN). -/
def alignedSum (ls : List Series) : Series :=
  (unionDates ls).map (fun d => (d, (ls.map (fun l => (lookupDate l d).getD 0)).sum))

/-- Portfolio.compute_portfolio_value: per-instrument scaled series for every
instrument whose data is not None, outer-aligned and summed row-wise; the
result is stored into `history` and also returned. -/
def computePortfolioValue (p : Portfolio) : Portfolio × Series :=
  ({ p with history :=
      (if (p.instruments.filterMap (fun i => i.data.map (scaleSeries i.quantity))).isEmpty
       then ([] : Series)
       else alignedSum (p.instruments.filterMap (fun i => i.data.map (scaleSeries i.quantity)))) },
   (if (p.instruments.filterMap (fun i => i.data.map (scaleSeries i.quantity))).isEmpty
    then ([] : Series)
    else alignedSum (p.instruments.filterMap (fun i => i.data.map (scaleSeries i.quantity)))))

/-- Portfolio.compute_returns: recompute every instrument's return series and
assemble the joint return table (one column per ticker, in dict order); the
table is never `None` afterwards, even for an empty portfolio. -/
def portfolioComputeReturns (p : Portfolio) : Portfolio :=
  { p with
      instruments := p.instruments.map instComputeReturns,
      returns := some ((p.instruments.map instComputeReturns).map
        (fun i => (i.ticker, i.returns.getD []))) }

/-- Linear interpolation between order statistics of a sorted list at the
(possibly fractional) virtual index `i`, as numpy does. -/
def interpSorted (s : List ℚ) (i : ℚ) : ℚ :=
  s.getD (⌊i⌋).toNat 0 +
    (i - ((⌊i⌋).toNat : ℚ)) *
      (s.getD ((⌊i⌋).toNat + 1) (s.getD (⌊i⌋).toNat 0) - s.getD (⌊i⌋).toNat 0)

/-- numpy `np.percentile(xs, q)` with the default linear interpolation:
sort, take the value at virtual index `q * (n - 1) / 100`. -/
def npPercentile (xs : List ℚ) (q : ℚ) : ℚ :=
  if (List.insertionSort (· ≤ ·) xs).length = 0 then 0
  else interpSorted (List.insertionSort (· ≤ ·) xs)
    (q * (((List.insertionSort (· ≤ ·) xs).length : ℚ) - 1) / 100)

/-- `instrument.data.iloc[-1] * instrument.quantity`: `None.iloc` is an
AttributeError, `.iloc[-1]` on an empty Series is an IndexError. -/
def lastPriceTimesQty (i : Instrument) : Except Err ℚ :=
  match i.data with
  | none => .error .attributeError
  | some l =>
    match l.getLast? with
    | none => .error .indexError
    | some e => .ok (e.2 * i.quantity)

/-- The per-instrument loop of Portfolio.historical_var: raise on the first
instrument with an empty return series, otherwise accumulate
`(current_value - projected_value) * sqrt(time_horizon)`. -/
def histLoop (s : ℚ → ℚ) (lossP timeH : ℚ) : List Instrument → Except Err ℚ
  | [] => .ok 0
  | i :: rest =>
    match i.returns with
    | none => .error .attributeError
    | some r =>
      if r.isEmpty then .error (.emptyReturns i.ticker)
      else
        match i.data with
        | none => .error .attributeError
        | some l =>
          match l.getLast? with
          | none => .error .indexError
          | some e =>
            (histLoop s lossP timeH rest).map (fun t =>
              (e.2 * i.quantity - e.2 * (1 + npPercentile (r.map Prod.snd) lossP) * i.quantity)
                * s timeH + t)

/-- Portfolio.historical_var: recompute value history and returns, check the
no-data condition, then run the per-instrument loop with
`loss_percentile = (1 - confidence) * 100`. -/
def historicalVar (s : ℚ → ℚ) (p : Portfolio) (timeHorizon conf : ℚ) :
    Portfolio × Except Err ℚ :=
  if (portfolioComputeReturns (computePortfolioValue p).1).returns.isNone
      || (portfolioComputeReturns (computePortfolioValue p).1).history.isEmpty then
    (portfolioComputeReturns (computePortfolioValue p).1, .error .noData)
  else
    (portfolioComputeReturns (computePortfolioValue p).1,
     histLoop s ((1 - conf) * 100) timeHorizon
       (portfolioComputeReturns (computePortfolioValue p).1).instruments)

/-- Dot product (`np.dot` on vectors). -/
def dotp (a b : List ℚ) : ℚ := ((a.zip b).map (fun e => e.1 * e.2)).sum

/-- Matrix–vector product (`np.dot(covariance_matrix, weights)`). -/
def matVec (m : List (List ℚ)) (v : List ℚ) : List ℚ := m.map (fun row => dotp row v)

/-- pandas pairwise sample covariance of two columns over their common dates
(ddof = 1; fewer than two overlapping observations yields no value, modelled 0). -/
def covPair (a b : Series) : ℚ :=
  if ((a.map Prod.fst).filter (fun d => (lookupDate b d).isSome)).length ≤ 1 then 0
  else
    (((((a.map Prod.fst).filter (fun d => (lookupDate b d).isSome)).map
        (fun d => (lookupDate a d).getD 0)).zip
       (((a.map Prod.fst).filter (fun d => (lookupDate b d).isSome)).map
        (fun d => (lookupDate b d).getD 0))).map
      (fun e =>
        (e.1 - (((a.map Prod.fst).filter (fun d => (lookupDate b d).isSome)).map
            (fun d => (lookupDate a d).getD 0)).sum /
          ((((a.map Prod.fst).filter (fun d => (lookupDate b d).isSome)).length : ℚ))) *
        (e.2 - (((a.map Prod.fst).filter (fun d => (lookupDate b d).isSome)).map
            (fun d => (lookupDate b d).getD 0)).sum /
          ((((a.map Prod.fst).filter (fun d => (lookupDate b d).isSome)).length : ℚ))))).sum /
      (((((a.map Prod.fst).filter (fun d => (lookupDate b d).isSome)).length : ℚ)) - 1)

/-- pandas `self.returns.cov()`: the matrix of pairwise covariances, rows and
columns in the column order of the return table. -/
def covMatrix (cols : List (String × Series)) : List (List ℚ) :=
  cols.map (fun c1 => cols.map (fun c2 => covPair c1.2 c2.2))

/-- The weight vector comprehension of model_building_var / monte_carlo_var:
`instrument.data.iloc[-1] * instrument.quantity / portfolio_value` element by
element, aborting with the corresponding Python exception on unfetched or
empty data. -/
def weightsOf : List Instrument → ℚ → Except Err (List ℚ)
  | [], _ => .ok []
  | i :: rest, pv =>
    match lastPriceTimesQty i with
    | .error e => .error e
    | .ok v => (weightsOf rest pv).map (fun ws => v / pv :: ws)

/-- Portfolio.model_building_var after its no-data check: take the last value
of the recomputed history (IndexError on empty), check for zero value,
compute weights, and return `|z * volatility * portfolio_value * sqrt(h)|`. -/
def mbAfterChecks (s ppf : ℚ → ℚ) (conf timeH : ℚ) (cov : List (List ℚ))
    (p2 : Portfolio) (hist : Series) : Portfolio × Except Err ℚ :=
  match hist.getLast? with
  | none => (p2, .error .indexError)
  | some dv =>
    if dv.2 = 0 then (p2, .error .degenerateState)
    else
      match weightsOf p2.instruments dv.2 with
      | .error e => (p2, .error e)
      | .ok w =>
        (p2, .ok |ppf (1 - conf) * s (dotp w (matVec cov w)) * dv.2 * s timeH|)

/-- Portfolio.model_building_var: recompute the return table, check
`self.returns is None or self.history.empty` against the *stored* (stale)
history, then proceed as in the source. -/
def modelBuildingVar (s ppf : ℚ → ℚ) (p : Portfolio) (conf timeHorizon : ℚ) :
    Portfolio × Except Err ℚ :=
  if (portfolioComputeReturns p).returns.isNone
      || (portfolioComputeReturns p).history.isEmpty then
    (portfolioComputeReturns p, .error .noData)
  else
    mbAfterChecks s ppf conf timeHorizon
      (covMatrix ((portfolioComputeReturns p).returns.getD []))
      (computePortfolioValue (portfolioComputeReturns p)).1
      (computePortfolioValue (portfolioComputeReturns p)).2

/-- Column-wise mean of the return table (pandas `self.returns.mean()`). -/
def meanReturns (cols : List (String × Series)) : List ℚ :=
  cols.map (fun c =>
    if c.2.isEmpty then 0 else (c.2.map Prod.snd).sum / ((c.2.length : ℚ)))

/-- Portfolio.monte_carlo_var after the value-history recomputation:
`current_value` is taken with `.iloc[-1]` *before* the no-data check (an
IndexError on an empty history), then weights, simulated returns via the
external `rng` (np.random.multivariate_normal applied to the column means
and covariance matrix), scaling by `sqrt(time_horizon)`, the empirical
percentile at `100 - percentile*100`, and the projected loss. -/
def mcTail (s : ℚ → ℚ) (rng : List ℚ → List (List ℚ) → ℕ → List (List ℚ))
    (numSims : ℕ) (timeHorizon conf : ℚ) (p2 : Portfolio) (hist : Series) :
    Portfolio × Except Err ℚ :=
  match hist.getLast? with
  | none => (p2, .error .indexError)
  | some dv =>
    if p2.returns.isNone || hist.isEmpty then (p2, .error .noData)
    else
      match weightsOf p2.instruments dv.2 with
      | .error e => (p2, .error e)
      | .ok w =>
        (p2, .ok (dv.2 - dv.2 * (1 +
          npPercentile
            ((rng (meanReturns (p2.returns.getD [])) (covMatrix (p2.returns.getD [])) numSims).map
              (fun r => dotp r w * s timeHorizon))
            (100 - conf * 100))))

/-- Portfolio.monte_carlo_var. -/
def monteCarloVar (s : ℚ → ℚ) (rng : List ℚ → List (List ℚ) → ℕ → List (List ℚ))
    (p : Portfolio) (numSims : ℕ) (timeHorizon conf : ℚ) :
    Portfolio × Except Err ℚ :=
  mcTail s rng numSims timeHorizon conf
    (computePortfolioValue (portfolioComputeReturns p)).1
    (computePortfolioValue (portfolioComputeReturns p)).2

/-! ### Derived closed forms used in theorem statements -/

/-- The last fetched price of an instrument (meaningful when data is a
non-empty series). -/
def lastPriceD (i : Instrument) : ℚ := ((i.data.getD []).getLastD (0, 0)).2

/-- The return table produced by Portfolio.compute_returns, as a function of
the portfolio's instruments. -/
def returnTable (p : Portfolio) : List (String × Series) :=
  p.instruments.map (fun i => (i.ticker, pctChange (i.data.getD [])))

/-- The weight vector of §4.2 of the spec:
`last_price * quantity / portfolio_value` per instrument, in order. -/
def specWeights (p : Portfolio) (pv : ℚ) : List ℚ :=
  p.instruments.map (fun i => lastPriceD i * i.quantity / pv)

/-- The quadratic form weightsᵀ · covariance_matrix · weights. -/
def portfolioVariance (p : Portfolio) (pv : ℚ) : ℚ :=
  dotp (specWeights p pv) (matVec (covMatrix (returnTable p)) (specWeights p pv))

/-- The per-instrument summand of historical VaR as described by the spec:
`(last_price*quantity - last_price*(1+percentile_return)*quantity) * sqrt(h)`
with the percentile return taken at `(1 - confidence) * 100` from the
instrument's own return series. -/
def histTerm (s : ℚ → ℚ) (timeH conf : ℚ) (i : Instrument) : ℚ :=
  (lastPriceD i * i.quantity -
    lastPriceD i *
      (1 + npPercentile ((pctChange (i.data.getD [])).map Prod.snd) ((1 - conf) * 100))
      * i.quantity) * s timeH

/-- The observable core state of a portfolio: per instrument its kind,
identifier, quantity and fetched price series, in order. -/
def coreView (p : Portfolio) : List (Kind × String × ℚ × Option Series) :=
  p.instruments.map (fun i => (i.kind, i.ticker, i.quantity, i.data))

/-! ### Structural lemmas -/

theorem instComputeReturns_returns (i : Instrument) :
    (instComputeReturns i).returns = some (pctChange (i.data.getD [])) := by
  cases h : i.data <;> simp [instComputeReturns, h, pctChange]

theorem pcr_instruments (p : Portfolio) :
    (portfolioComputeReturns p).instruments = p.instruments.map instComputeReturns := rfl

theorem pcr_history (p : Portfolio) :
    (portfolioComputeReturns p).history = p.history := rfl

theorem pcr_returns_isSome (p : Portfolio) :
    (portfolioComputeReturns p).returns.isNone = false := rfl

theorem cpv_fst_instruments (p : Portfolio) :
    (computePortfolioValue p).1.instruments = p.instruments := rfl

theorem cpv_fst_returns (p : Portfolio) :
    (computePortfolioValue p).1.returns = p.returns := rfl

theorem cpv_fst_history (p : Portfolio) :
    (computePortfolioValue p).1.history = (computePortfolioValue p).2 := rfl

theorem cpv_pcr (p : Portfolio) :
    (computePortfolioValue (portfolioComputeReturns p)).2 = (computePortfolioValue p).2 := by
  simp [computePortfolioValue, portfolioComputeReturns, List.filterMap_map,
    Function.comp_def, instComputeReturns]

theorem returnTable_pcr (p : Portfolio) :
    (portfolioComputeReturns p).returns.getD [] = returnTable p := by
  simp only [portfolioComputeReturns, returnTable, Option.getD_some, List.map_map]
  refine List.map_congr_left (fun i _ => ?_)
  simp only [Function.comp_def, instComputeReturns]
  cases h : i.data <;> simp [h, pctChange]

theorem coreView_pcr (p : Portfolio) :
    coreView (portfolioComputeReturns p) = coreView p := by
  simp [coreView, portfolioComputeReturns, List.map_map, Function.comp_def, instComputeReturns]

theorem coreView_cpv (p : Portfolio) :
    coreView (computePortfolioValue p).1 = coreView p := rfl

theorem historicalVar_fst (s : ℚ → ℚ) (p : Portfolio) (timeHorizon conf : ℚ) :
    (historicalVar s p timeHorizon conf).1 =
      portfolioComputeReturns (computePortfolioValue p).1 := by
  unfold historicalVar; split <;> rfl

theorem mbAfterChecks_fst (s ppf : ℚ → ℚ) (conf timeH : ℚ) (cov : List (List ℚ))
    (p2 : Portfolio) (hist : Series) :
    (mbAfterChecks s ppf conf timeH cov p2 hist).1 = p2 := by
  unfold mbAfterChecks
  rcases hist.getLast? with _ | dv
  · rfl
  · dsimp only
    split
    · rfl
    · rcases weightsOf p2.instruments dv.2 with e | w <;> rfl

theorem mcTail_fst (s : ℚ → ℚ) (rng : List ℚ → List (List ℚ) → ℕ → List (List ℚ))
    (numSims : ℕ) (timeHorizon conf : ℚ) (p2 : Portfolio) (hist : Series) :
    (mcTail s rng numSims timeHorizon conf p2 hist).1 = p2 := by
  unfold mcTail
  rcases hist.getLast? with _ | dv
  · rfl
  · dsimp only
    split
    · rfl
    · rcases weightsOf p2.instruments dv.2 with e | w <;> rfl

/-! ### Claim C10: frame condition of the three VaR methods -/

/-- Claim C10: every VaR method, whether it returns a value or raises, leaves
the portfolio's instruments — kind, identifier, quantity and fetched price
series — unchanged; only the derived fields (per-instrument return series,
return table, value history) are rewritten. -/
theorem C10_var_methods_frame (s ppf : ℚ → ℚ)
    (rng : List ℚ → List (List ℚ) → ℕ → List (List ℚ))
    (p : Portfolio) (numSims : ℕ) (timeHorizon conf : ℚ) :
    coreView (historicalVar s p timeHorizon conf).1 = coreView p ∧
    coreView (modelBuildingVar s ppf p conf timeHorizon).1 = coreView p ∧
    coreView (monteCarloVar s rng p numSims timeHorizon conf).1 = coreView p := by
  refine ⟨?_, ?_, ?_⟩
  · rw [historicalVar_fst, coreView_pcr, coreView_cpv]
  · unfold modelBuildingVar
    split
    · exact coreView_pcr p
    · rw [mbAfterChecks_fst, coreView_cpv, coreView_pcr]
  · unfold monteCarloVar
    rw [mcTail_fst, coreView_cpv, coreView_pcr]

/-! ### Claim C5: shape and contents of the derived return series -/

theorem pctChange_length (l : Series) : (pctChange l).length = l.length - 1 := by
  simp [pctChange]

theorem pctChange_getD (l : Series) (k : ℕ) (h : k + 1 < l.length) :
    (pctChange l).getD k (0, 0) =
      ((l.getD (k + 1) (0, 0)).1,
       (l.getD (k + 1) (0, 0)).2 / (l.getD k (0, 0)).2 - 1) := by
  have hk : k < (pctChange l).length := by rw [pctChange_length]; omega
  have hkl : k < l.length := by omega
  have hkt : k < l.tail.length := by simp [List.length_tail]; omega
  have hz : k < (l.zip l.tail).length := by simp [List.length_zip]; omega
  rw [List.getD_eq_getElem _ _ hk, List.getD_eq_getElem _ _ h, List.getD_eq_getElem _ _ hkl]
  simp [pctChange, List.getElem_zip, List.getElem_tail]

/-- Claim C5: for a fetched price series with n ≥ 2 points, compute_returns
yields a defined return series of length exactly n − 1 whose entry at
position k is dated at the later point and equals
`price[k+1]/price[k] - 1`; for unfetched data or fewer than 2 points the
return series is empty, with no error in either case. -/
theorem C5_compute_returns (i : Instrument) :
    (∀ l, i.data = some l → 2 ≤ l.length →
      ∃ r, (instComputeReturns i).returns = some r ∧
        r.length = l.length - 1 ∧
        (∀ k, k + 1 < l.length →
          r.getD k (0, 0) =
            ((l.getD (k + 1) (0, 0)).1,
             (l.getD (k + 1) (0, 0)).2 / (l.getD k (0, 0)).2 - 1)))
    ∧ ((∀ l, i.data = some l → l.length < 2) →
        (instComputeReturns i).returns = some []) := by
  constructor
  · intro l hl _
    refine ⟨pctChange l, ?_, pctChange_length l, fun k hk => pctChange_getD l k hk⟩
    rw [instComputeReturns_returns, hl, Option.getD_some]
  · intro hshort
    rw [instComputeReturns_returns]
    cases hd : i.data with
    | none => simp [pctChange]
    | some l =>
      have : l.length < 2 := hshort l hd
      have hlen : (pctChange l).length = 0 := by rw [pctChange_length]; omega
      simp [hd, List.length_eq_zero.mp hlen]

/-- Concrete instrument used to witness C5. -/
def iC5 : Instrument := ⟨.stock, "A", 2, some [(0, 100), (1, 102), (2, 101)], none⟩

theorem C5_witness :
    ∃ r, (instComputeReturns iC5).returns = some r ∧
      r.length = ([((0 : ℕ), (100 : ℚ)), (1, 102), (2, 101)] : Series).length - 1 ∧
      (∀ k, k + 1 < ([((0 : ℕ), (100 : ℚ)), (1, 102), (2, 101)] : Series).length →
        r.getD k (0, 0) =
          ((([((0 : ℕ), (100 : ℚ)), (1, 102), (2, 101)] : Series).getD (k + 1) (0, 0)).1,
           (([((0 : ℕ), (100 : ℚ)), (1, 102), (2, 101)] : Series).getD (k + 1) (0, 0)).2 /
             (([((0 : ℕ), (100 : ℚ)), (1, 102), (2, 101)] : Series).getD k (0, 0)).2 - 1)) :=
  (C5_compute_returns iC5).1 [(0, 100), (1, 102), (2, 101)] rfl (by norm_num)

/-! ### Claim C6: add_instrument merge semantics -/

/-- Placeholder instrument used as a `getD` default in index statements. -/
def dummyInst : Instrument := ⟨.stock, "", 0, none, none⟩

/-- Claim C6: adding an instrument whose identifier is already present sums
the new quantity into the existing entry, leaves every instrument's stored
price data (and kind, ticker, position) unchanged and discards the incoming
price data; an unknown identifier is appended as a new entry with everything
else unchanged. -/
theorem C6_add_instrument (p : Portfolio) (inst : Instrument) :
    ((p.instruments.map (fun i => i.ticker)).Nodup →
      inst.ticker ∈ p.instruments.map (fun i => i.ticker) →
      (addInstrument p inst).returns = p.returns ∧
      (addInstrument p inst).history = p.history ∧
      (addInstrument p inst).instruments.length = p.instruments.length ∧
      (∀ k, k < p.instruments.length →
        ((addInstrument p inst).instruments.getD k dummyInst).kind =
          (p.instruments.getD k dummyInst).kind ∧
        ((addInstrument p inst).instruments.getD k dummyInst).ticker =
          (p.instruments.getD k dummyInst).ticker ∧
        ((addInstrument p inst).instruments.getD k dummyInst).data =
          (p.instruments.getD k dummyInst).data ∧
        ((addInstrument p inst).instruments.getD k dummyInst).quantity =
          (p.instruments.getD k dummyInst).quantity +
            (if (p.instruments.getD k dummyInst).ticker = inst.ticker
             then inst.quantity else 0)))
    ∧ (inst.ticker ∉ p.instruments.map (fun i => i.ticker) →
        addInstrument p inst = { p with instruments := p.instruments ++ [inst] }) := by
  constructor
  · intro _ hmem
    have hany : p.instruments.any (fun i => i.ticker == inst.ticker) = true := by
      rw [List.any_eq_true]
      rcases List.mem_map.mp hmem with ⟨i0, hi0, ht⟩
      exact ⟨i0, hi0, by simp [ht]⟩
    rw [addInstrument, if_pos hany]
    refine ⟨rfl, rfl, by simp, fun k hk => ?_⟩
    have hk2 : k < (p.instruments.map (fun i =>
        if i.ticker == inst.ticker then updateQuantity i inst.quantity else i)).length := by
      simpa using hk
    rw [List.getD_eq_getElem _ _ hk2, List.getD_eq_getElem _ _ hk]
    simp only [List.getElem_map]
    by_cases hoeq : p.instruments[k].ticker = inst.ticker <;>
      simp [hoeq, updateQuantity]
  · intro hnot
    have hany : p.instruments.any (fun i => i.ticker == inst.ticker) = false := by
      rw [List.any_eq_false]
      intro i0 hi0
      simp only [beq_iff_eq]
      intro ht
      exact hnot (List.mem_map.mpr ⟨i0, hi0, ht⟩)
    rw [addInstrument, if_neg (by simp [hany])]

/-- Concrete portfolio used to witness C6: instrument "A" is already present,
"C" is not. -/
def pC6 : Portfolio :=
  ⟨[⟨.stock, "A", 3, some [(0, 10), (1, 11)], none⟩, ⟨.stock, "B", 5, none, none⟩],
   none, []⟩

theorem C6_witness :
    ((addInstrument pC6 ⟨.stock, "A", 4, some [(0, 99)], none⟩).returns = pC6.returns ∧
     (addInstrument pC6 ⟨.stock, "A", 4, some [(0, 99)], none⟩).history = pC6.history ∧
     (addInstrument pC6 ⟨.stock, "A", 4, some [(0, 99)], none⟩).instruments.length =
       pC6.instruments.length ∧
     (∀ k, k < pC6.instruments.length →
       ((addInstrument pC6 ⟨.stock, "A", 4, some [(0, 99)], none⟩).instruments.getD k
          dummyInst).kind = (pC6.instruments.getD k dummyInst).kind ∧
       ((addInstrument pC6 ⟨.stock, "A", 4, some [(0, 99)], none⟩).instruments.getD k
          dummyInst).ticker = (pC6.instruments.getD k dummyInst).ticker ∧
       ((addInstrument pC6 ⟨.stock, "A", 4, some [(0, 99)], none⟩).instruments.getD k
          dummyInst).data = (pC6.instruments.getD k dummyInst).data ∧
       ((addInstrument pC6 ⟨.stock, "A", 4, some [(0, 99)], none⟩).instruments.getD k
          dummyInst).quantity = (pC6.instruments.getD k dummyInst).quantity +
            (if (pC6.instruments.getD k dummyInst).ticker = "A"
             then (4 : ℚ) else 0)))
    ∧ addInstrument pC6 ⟨.swap, "C", 7, none, none⟩ =
        { pC6 with instruments := pC6.instruments ++ [⟨.swap, "C", 7, none, none⟩] } :=
  ⟨(C6_add_instrument pC6 ⟨.stock, "A", 4, some [(0, 99)], none⟩).1
      (by decide) (by decide),
   (C6_add_instrument pC6 ⟨.swap, "C", 7, none, none⟩).2 (by decide)⟩

/-! ### Error-shape lemmas for the weight computation -/

theorem lastPriceTimesQty_cases (i : Instrument) :
    (∃ v, lastPriceTimesQty i = .ok v) ∨
    lastPriceTimesQty i = .error .attributeError ∨
    lastPriceTimesQty i = .error .indexError := by
  unfold lastPriceTimesQty
  cases i.data with
  | none => exact .inr (.inl rfl)
  | some l =>
    dsimp only
    cases l.getLast? with
    | none => exact .inr (.inr rfl)
    | some e => exact .inl ⟨e.2 * i.quantity, rfl⟩

theorem weightsOf_cases (insts : List Instrument) (pv : ℚ) :
    (∃ w, weightsOf insts pv = .ok w) ∨
    weightsOf insts pv = .error .attributeError ∨
    weightsOf insts pv = .error .indexError := by
  induction insts with
  | nil => exact .inl ⟨[], rfl⟩
  | cons i rest ih =>
    unfold weightsOf
    rcases lastPriceTimesQty_cases i with ⟨v, hv⟩ | hv | hv <;> rw [hv]
    · rcases ih with ⟨w, hw⟩ | hw | hw <;> rw [hw]
      · exact .inl ⟨v / pv :: w, rfl⟩
      · exact .inr (.inl rfl)
      · exact .inr (.inr rfl)
    · exact .inr (.inl rfl)
    · exact .inr (.inr rfl)

theorem weightsOf_not_ok_of_mem_none (insts : List Instrument) (pv : ℚ)
    (i : Instrument) (hmem : i ∈ insts) (hd : i.data = none) :
    ∀ w, weightsOf insts pv ≠ .ok w := by
  induction insts with
  | nil => cases hmem
  | cons j rest ih =>
    intro w
    unfold weightsOf
    rcases List.mem_cons.mp hmem with rfl | hmem2
    · rw [show lastPriceTimesQty i = .error .attributeError by
        unfold lastPriceTimesQty; rw [hd]]
      simp
    · rcases lastPriceTimesQty_cases j with ⟨v, hv⟩ | hv | hv <;> rw [hv] <;> try simp
      rcases hwr : weightsOf rest pv with e | w2
      · simp [Except.map]
      · exact absurd hwr (ih hmem2 w2)

/-! ### Concrete portfolios used in closed statements -/

/-- One stock added, nothing ever fetched (data is None). -/
def pNoneData : Portfolio := ⟨[⟨.stock, "A", 1, none, none⟩], none, []⟩

/-- One stock whose fetch produced an empty price series. -/
def pEmptyData : Portfolio := ⟨[⟨.stock, "A", 1, some [], none⟩], none, []⟩

/-- One stock with three fetched prices, never otherwise computed on:
the state right after `fetch_all_data` on a fresh portfolio. -/
def pFetched : Portfolio :=
  ⟨[⟨.stock, "A", 1, some [(0, 1), (1, 2), (2, 6)], none⟩], none, []⟩

/-- Zero-quantity holding with fetched data and a stale non-empty history. -/
def pZeroQty : Portfolio :=
  ⟨[⟨.stock, "A", 0, some [(0, 1), (1, 2)], none⟩], none, [(0, 2)]⟩

/-- Fetched data together with a (stale) non-empty history, as left behind by
an earlier value-history computation. -/
def pStale : Portfolio :=
  ⟨[⟨.stock, "A", 1, some [(0, 1), (1, 2), (2, 6)], none⟩], none, [(0, 1)]⟩

/-! ### Claim C1: behaviour of the three VaR methods with no fetched data -/

/-- Claim C1 (code bug): on a portfolio with no fetched price data — whether
the data is still None or a fetch stored an empty series — historical_var and
model_building_var raise the documented "no data" ValueError, but
monte_carlo_var evaluates `self.compute_portfolio_value().iloc[-1]` *before*
its no-data check and instead dies with a pandas IndexError, contradicting
its own docstring ("Raises ValueError: If data has not been fetched or if
the portfolio is empty"). -/
theorem C1_no_data_paths :
    (historicalVar (fun x => x) pNoneData 1 (19/20)).2 = .error .noData ∧
    (modelBuildingVar (fun x => x) (fun x => x) pNoneData (19/20) 1).2 = .error .noData ∧
    (monteCarloVar (fun x => x) (fun _ _ _ => []) pNoneData 10 1 (19/20)).2 =
      .error .indexError ∧
    (historicalVar (fun x => x) pEmptyData 1 (19/20)).2 = .error .noData ∧
    (modelBuildingVar (fun x => x) (fun x => x) pEmptyData (19/20) 1).2 = .error .noData ∧
    (monteCarloVar (fun x => x) (fun _ _ _ => []) pEmptyData 10 1 (19/20)).2 =
      .error .indexError :=
  ⟨rfl, rfl, rfl, rfl, rfl, rfl⟩

/-! ### Claim C2: when model_building_var raises "no data" -/

theorem mbAfterChecks_ne_noData (s ppf : ℚ → ℚ) (conf timeH : ℚ)
    (cov : List (List ℚ)) (p2 : Portfolio) (hist : Series) :
    (mbAfterChecks s ppf conf timeH cov p2 hist).2 ≠ .error .noData := by
  unfold mbAfterChecks
  cases hist.getLast? with
  | none => simp
  | some dv =>
    dsimp only
    split
    · simp
    · rcases weightsOf_cases p2.instruments dv.2 with ⟨w, hw⟩ | hw | hw <;>
        rw [hw] <;> simp

/-- Claim C2, amended: model_building_var raises the "no data" condition
exactly when the *stored* value history — stale, not recomputed by this
method before the check — is empty at call time, regardless of how much
return data has been fetched. -/
theorem C2_amended_no_data_iff (s ppf : ℚ → ℚ) (p : Portfolio) (conf timeH : ℚ) :
    (modelBuildingVar s ppf p conf timeH).2 = .error .noData ↔ p.history = [] := by
  constructor
  · intro h
    by_contra hne
    have hc : ((portfolioComputeReturns p).returns.isNone
        || (portfolioComputeReturns p).history.isEmpty) = false := by
      rw [pcr_returns_isSome, pcr_history]
      simpa [List.isEmpty_iff] using hne
    unfold modelBuildingVar at h
    rw [if_neg (by simp [hc])] at h
    exact mbAfterChecks_ne_noData _ _ _ _ _ _ _ h
  · intro h
    have hc : ((portfolioComputeReturns p).returns.isNone
        || (portfolioComputeReturns p).history.isEmpty) = true := by
      rw [pcr_history]
      simp [List.isEmpty_iff, h]
    unfold modelBuildingVar
    rw [if_pos hc]

/-- Claim C2, counterexample to the claim as stated: a portfolio whose single
instrument has been added and fetched with a non-empty price series (hence
non-empty return data), on a *first* call to model_building_var (no prior
value-history computation, so the stored history is still the empty Series
of `__init__`), does NOT pass the no-data check: it raises "no data". -/
theorem C2_counterexample :
    pFetched.instruments ≠ [] ∧
    (∀ i ∈ pFetched.instruments, i.data.getD [] ≠ [] ∧ pctChange (i.data.getD []) ≠ []) ∧
    pFetched.history = [] ∧
    (modelBuildingVar (fun x => x) (fun x => x) pFetched (19/20) 1).2 = .error .noData :=
  ⟨by decide, by decide, rfl, rfl⟩

/-! ### Claim C7: zero portfolio value raises DegenerateState -/

/-- Claim C7: whenever the no-data check passes (the stored history is
non-empty) and the freshly recomputed value history ends in the value 0,
model_building_var stops with the DegenerateState ("zero value") error:
no weights are computed, no partial result is returned, and the division
by the portfolio value is never reached. -/
theorem C7_zero_value (s ppf : ℚ → ℚ) (p : Portfolio) (conf timeH : ℚ)
    (dv : ℕ × ℚ)
    (hstale : p.history ≠ [])
    (hlast : (computePortfolioValue p).2.getLast? = some dv)
    (hz : dv.2 = 0) :
    (modelBuildingVar s ppf p conf timeH).2 = .error .degenerateState := by
  have hc : ((portfolioComputeReturns p).returns.isNone
      || (portfolioComputeReturns p).history.isEmpty) = false := by
    rw [pcr_returns_isSome, pcr_history]
    simpa [List.isEmpty_iff] using hstale
  unfold modelBuildingVar
  rw [if_neg (by simp [hc])]
  unfold mbAfterChecks
  rw [cpv_pcr, hlast]
  dsimp only
  rw [if_pos hz]

theorem C7_witness :
    (modelBuildingVar (fun x => x) (fun x => x) pZeroQty (19/20) 1).2 =
      .error .degenerateState :=
  C7_zero_value (fun x => x) (fun x => x) pZeroQty (19/20) 1 (1, 0)
    (by decide) (by with_unfolding_all rfl) rfl

/-! ### Claim C3: the historical VaR formula -/

theorem pctChange_ne_nil_data (i : Instrument)
    (h : pctChange (i.data.getD []) ≠ []) :
    ∃ l, i.data = some l ∧ l ≠ [] ∧ pctChange l ≠ [] := by
  cases hd : i.data with
  | none => rw [hd] at h; exact absurd rfl h
  | some l =>
    rw [hd] at h
    simp only [Option.getD_some] at h
    refine ⟨l, rfl, ?_, h⟩
    rintro rfl
    exact h rfl

theorem histLoop_map_ok (s : ℚ → ℚ) (lossP timeH : ℚ) (l : List Instrument)
    (h : ∀ i ∈ l, pctChange (i.data.getD []) ≠ []) :
    histLoop s lossP timeH (l.map instComputeReturns) =
      .ok ((l.map (fun i =>
        (lastPriceD i * i.quantity -
          lastPriceD i *
            (1 + npPercentile ((pctChange (i.data.getD [])).map Prod.snd) lossP)
            * i.quantity) * s timeH)).sum) := by
  induction l with
  | nil => simp [histLoop]
  | cons i rest ih =>
    obtain ⟨ld, hd, hne, hpc⟩ := pctChange_ne_nil_data i (h i (List.mem_cons_self i rest))
    rw [List.map_cons]
    unfold histLoop
    rw [instComputeReturns_returns, hd]
    simp only [Option.getD_some]
    rw [if_neg (by simpa [List.isEmpty_iff] using hpc)]
    have hdata2 : (instComputeReturns i).data = i.data := rfl
    rw [hdata2, hd]
    dsimp only
    rw [List.getLast?_eq_getLast_of_ne_nil hne]
    dsimp only
    rw [ih (fun j hj => h j (List.mem_cons_of_mem i hj))]
    simp only [Except.map, List.map_cons, List.sum_cons]
    congr 1
    have hlast : lastPriceD i = (ld.getLast hne).2 := by
      rw [lastPriceD, hd, Option.getD_some, List.getLastD_eq_getLast?,
        List.getLast?_eq_getLast_of_ne_nil hne, Option.getD_some]
    have hq : (instComputeReturns i).quantity = i.quantity := rfl
    rw [hq, hlast, hd]
    simp only [Option.getD_some]

/-- The sum the spec prescribes for historical VaR, as a function of the
portfolio state before the call. -/
theorem historicalVar_ok (s : ℚ → ℚ) (p : Portfolio) (timeH conf : ℚ)
    (h1 : (computePortfolioValue p).2 ≠ [])
    (h2 : ∀ i ∈ p.instruments, pctChange (i.data.getD []) ≠ []) :
    (historicalVar s p timeH conf).2 =
      .ok ((p.instruments.map (histTerm s timeH conf)).sum) := by
  have hc : ((portfolioComputeReturns (computePortfolioValue p).1).returns.isNone
      || (portfolioComputeReturns (computePortfolioValue p).1).history.isEmpty) = false := by
    rw [pcr_returns_isSome, pcr_history, cpv_fst_history]
    simpa [List.isEmpty_iff] using h1
  unfold historicalVar
  rw [if_neg (by simp [hc])]
  dsimp only
  rw [pcr_instruments, cpv_fst_instruments,
    histLoop_map_ok s ((1 - conf) * 100) timeH p.instruments h2]
  rfl

/-- Claim C3: whenever the no-data checks pass (the recomputed value history
is non-empty and every instrument's recomputed return series is non-empty),
historical_var returns exactly the sum over instruments of
`(last_price*quantity - last_price*(1+percentile_return)*quantity) * sqrt(h)`
with the percentile return taken at `(1-confidence)*100` (numpy linear
interpolation between order statistics) from the instrument's own return
series; the sum is returned unclamped (the witness below exhibits a negative
return value). -/
theorem C3_historical_var_formula (s : ℚ → ℚ) (p : Portfolio) (timeH conf : ℚ)
    (h1 : (computePortfolioValue p).2 ≠ [])
    (h2 : ∀ i ∈ p.instruments, pctChange (i.data.getD []) ≠ []) :
    (historicalVar s p timeH conf).2 =
      .ok ((p.instruments.map (histTerm s timeH conf)).sum) :=
  historicalVar_ok s p timeH conf h1 h2

theorem C3_witness :
    (historicalVar (fun x => x) pFetched 1 (1/2)).2 =
      .ok ((pFetched.instruments.map (histTerm (fun x => x) 1 (1/2))).sum) ∧
    (pFetched.instruments.map (histTerm (fun x => x) 1 (1/2))).sum = -9 :=
  ⟨C3_historical_var_formula (fun x => x) pFetched 1 (1/2)
      (by decide) (by decide),
   by with_unfolding_all rfl⟩

/-! ### Claim C4: the model-building VaR formula -/

theorem weightsOf_map_ok (l : List Instrument) (pv : ℚ)
    (h : ∀ i ∈ l, i.data.getD [] ≠ []) :
    weightsOf (l.map instComputeReturns) pv =
      .ok (l.map (fun i => lastPriceD i * i.quantity / pv)) := by
  induction l with
  | nil => rfl
  | cons i rest ih =>
    have hne : i.data.getD [] ≠ [] := h i (List.mem_cons_self i rest)
    cases hd : i.data with
    | none => rw [hd] at hne; exact absurd rfl hne
    | some ld =>
      rw [hd, Option.getD_some] at hne
      rw [List.map_cons]
      unfold weightsOf
      have hlpq : lastPriceTimesQty (instComputeReturns i) =
          .ok ((ld.getLast hne).2 * i.quantity) := by
        unfold lastPriceTimesQty
        rw [show (instComputeReturns i).data = i.data from rfl, hd]
        dsimp only
        rw [List.getLast?_eq_getLast_of_ne_nil hne]
        rfl
      rw [hlpq]
      dsimp only
      rw [ih (fun j hj => h j (List.mem_cons_of_mem i hj))]
      simp only [Except.map, List.map_cons]
      have hlast : lastPriceD i = (ld.getLast hne).2 := by
        rw [lastPriceD, hd, Option.getD_some, List.getLastD_eq_getLast?,
          List.getLast?_eq_getLast_of_ne_nil hne, Option.getD_some]
      rw [hlast]

/-- Shared closed form for a successful model_building_var call. -/
theorem modelBuildingVar_ok (s ppf : ℚ → ℚ) (p : Portfolio) (conf timeH : ℚ)
    (dv : ℕ × ℚ)
    (hstale : p.history ≠ [])
    (hlast : (computePortfolioValue p).2.getLast? = some dv)
    (hz : dv.2 ≠ 0)
    (hdata : ∀ i ∈ p.instruments, i.data.getD [] ≠ []) :
    (modelBuildingVar s ppf p conf timeH).2 =
      .ok |ppf (1 - conf) * s (portfolioVariance p dv.2) * dv.2 * s timeH| := by
  have hc : ((portfolioComputeReturns p).returns.isNone
      || (portfolioComputeReturns p).history.isEmpty) = false := by
    rw [pcr_returns_isSome, pcr_history]
    simpa [List.isEmpty_iff] using hstale
  unfold modelBuildingVar
  rw [if_neg (by simp [hc])]
  unfold mbAfterChecks
  rw [cpv_pcr, hlast]
  dsimp only
  rw [if_neg hz, cpv_fst_instruments, pcr_instruments,
    weightsOf_map_ok p.instruments dv.2 hdata]
  dsimp only
  rw [returnTable_pcr]
  rfl

/-- Claim C4: whenever the no-data and zero-value checks pass and every
participating instrument has a non-empty fetched series, model_building_var
returns exactly `|z * volatility * portfolio_value * sqrt(time_horizon)|`
with `z = InverseNormalCDF(1 - confidence)`, volatility the square root of
weightsᵀ·Σ·weights, and portfolio_value the last entry of the recomputed
value history; consequently every returned value is non-negative. -/
theorem C4_model_building_formula (s ppf : ℚ → ℚ) (p : Portfolio)
    (conf timeH : ℚ) (dv : ℕ × ℚ)
    (hstale : p.history ≠ [])
    (hlast : (computePortfolioValue p).2.getLast? = some dv)
    (hz : dv.2 ≠ 0)
    (hdata : ∀ i ∈ p.instruments, i.data.getD [] ≠ []) :
    (modelBuildingVar s ppf p conf timeH).2 =
      .ok |ppf (1 - conf) * s (portfolioVariance p dv.2) * dv.2 * s timeH| ∧
    (∀ v, (modelBuildingVar s ppf p conf timeH).2 = .ok v → 0 ≤ v) := by
  have heq := modelBuildingVar_ok s ppf p conf timeH dv hstale hlast hz hdata
  refine ⟨heq, fun v hv => ?_⟩
  rw [heq] at hv
  cases hv
  exact abs_nonneg _

theorem C4_witness :
    (modelBuildingVar (fun x => x) (fun x => x - 1/2) pStale (3/4) 1).2 =
      .ok |(fun x : ℚ => x - 1/2) (1 - 3/4) *
            (fun x : ℚ => x) (portfolioVariance pStale ((2, (6 : ℚ)) : ℕ × ℚ).2) *
            ((2, (6 : ℚ)) : ℕ × ℚ).2 * (fun x : ℚ => x) 1| ∧
    (∀ v, (modelBuildingVar (fun x => x) (fun x => x - 1/2) pStale (3/4) 1).2 = .ok v →
      0 ≤ v) :=
  C4_model_building_formula (fun x => x) (fun x => x - 1/2) pStale (3/4) 1
    ((2, 6) : ℕ × ℚ) (by decide) (by with_unfolding_all rfl) (by norm_num) (by decide)

/-! ### Claim C9: bonds and swaps poison every VaR method -/

theorem histLoop_map_shape (s : ℚ → ℚ) (lossP timeH : ℚ) (l : List Instrument) :
    (∃ v, histLoop s lossP timeH (l.map instComputeReturns) = .ok v) ∨
    (∃ tk, histLoop s lossP timeH (l.map instComputeReturns) =
      .error (.emptyReturns tk)) := by
  induction l with
  | nil => exact .inl ⟨0, rfl⟩
  | cons i rest ih =>
    rw [List.map_cons]
    unfold histLoop
    rw [instComputeReturns_returns]
    dsimp only
    by_cases hpc : pctChange (i.data.getD []) = []
    · rw [if_pos (by simp [hpc])]
      exact .inr ⟨(instComputeReturns i).ticker, rfl⟩
    · rw [if_neg (by simpa [List.isEmpty_iff] using hpc)]
      obtain ⟨ld, hd, hne, _⟩ := pctChange_ne_nil_data i hpc
      rw [show (instComputeReturns i).data = i.data from rfl, hd]
      dsimp only
      rw [List.getLast?_eq_getLast_of_ne_nil hne]
      dsimp only
      rcases ih with ⟨v, hv⟩ | ⟨tk, hv⟩ <;> rw [hv]
      · exact .inl ⟨_, rfl⟩
      · exact .inr ⟨tk, rfl⟩

theorem histLoop_map_not_ok (s : ℚ → ℚ) (lossP timeH : ℚ) (l : List Instrument)
    (i : Instrument) (hmem : i ∈ l) (hd : i.data = none) :
    ∀ v, histLoop s lossP timeH (l.map instComputeReturns) ≠ .ok v := by
  induction l with
  | nil => cases hmem
  | cons j rest ih =>
    intro v
    rw [List.map_cons]
    unfold histLoop
    rw [instComputeReturns_returns]
    dsimp only
    rcases List.mem_cons.mp hmem with rfl | hmem2
    · rw [hd]
      simp [pctChange]
    · by_cases hpc : pctChange (j.data.getD []) = []
      · rw [if_pos (by simp [hpc])]
        simp
      · rw [if_neg (by simpa [List.isEmpty_iff] using hpc)]
        obtain ⟨ld, hdj, hne, _⟩ := pctChange_ne_nil_data j hpc
        rw [show (instComputeReturns j).data = j.data from rfl, hdj]
        dsimp only
        rw [List.getLast?_eq_getLast_of_ne_nil hne]
        dsimp only
        rcases hr : histLoop s lossP timeH (rest.map instComputeReturns) with e | v2
        · simp [Except.map]
        · exact absurd hr (ih hmem2 v2)

theorem filterMap_data_filter (l : List Instrument) :
    (l.filter (fun i => i.data.isSome)).filterMap
        (fun i => i.data.map (scaleSeries i.quantity)) =
      l.filterMap (fun i => i.data.map (scaleSeries i.quantity)) := by
  induction l with
  | nil => rfl
  | cons i rest ih =>
    cases hd : i.data with
    | none => simp [List.filter_cons, List.filterMap_cons, hd, ih]
    | some ld => simp [List.filter_cons, List.filterMap_cons, hd, ih]

/-- Claim C9: a Bond or Swap never acquires price data (its fetch is a no-op,
leaving data None rather than an empty series), compute_portfolio_value
excludes data-less instruments from the value history, and the presence of
such an instrument makes every VaR method raise: historical_var with the
per-instrument empty-return-data error whenever its no-data check passes,
and model_building_var / monte_carlo_var when their weight computation
reaches `.iloc[-1]` of the unset series (or earlier); no method returns a
value. -/
theorem C9_unpriced_instruments :
    (∀ (provider : String → ℕ → ℕ → Series) (a b : ℕ) (i : Instrument),
      (i.kind = Kind.bond ∨ i.kind = Kind.swap) → fetchData provider a b i = i)
    ∧ (∀ p : Portfolio,
        (computePortfolioValue
          { p with instruments := p.instruments.filter (fun i => i.data.isSome) }).2 =
        (computePortfolioValue p).2)
    ∧ (∀ (s : ℚ → ℚ) (p : Portfolio) (timeH conf : ℚ) (i : Instrument),
        i ∈ p.instruments → i.data = none →
        ∃ e, (historicalVar s p timeH conf).2 = .error e)
    ∧ (∀ (s : ℚ → ℚ) (p : Portfolio) (timeH conf : ℚ) (i : Instrument),
        i ∈ p.instruments → i.data = none → (computePortfolioValue p).2 ≠ [] →
        ∃ tk, (historicalVar s p timeH conf).2 = .error (.emptyReturns tk))
    ∧ (∀ (s ppf : ℚ → ℚ) (p : Portfolio) (conf timeH : ℚ) (i : Instrument),
        i ∈ p.instruments → i.data = none →
        ∃ e, (modelBuildingVar s ppf p conf timeH).2 = .error e)
    ∧ (∀ (s : ℚ → ℚ) (rng : List ℚ → List (List ℚ) → ℕ → List (List ℚ))
        (p : Portfolio) (n : ℕ) (timeH conf : ℚ) (i : Instrument),
        i ∈ p.instruments → i.data = none →
        ∃ e, (monteCarloVar s rng p n timeH conf).2 = .error e) := by
  have hhist : ∀ (s : ℚ → ℚ) (p : Portfolio) (timeH conf : ℚ) (i : Instrument),
      i ∈ p.instruments → i.data = none → (computePortfolioValue p).2 ≠ [] →
      ∃ tk, (historicalVar s p timeH conf).2 = .error (.emptyReturns tk) := by
    intro s p timeH conf i hmem hd h1
    have hc : ((portfolioComputeReturns (computePortfolioValue p).1).returns.isNone
        || (portfolioComputeReturns (computePortfolioValue p).1).history.isEmpty) = false := by
      rw [pcr_returns_isSome, pcr_history, cpv_fst_history]
      simpa [List.isEmpty_iff] using h1
    unfold historicalVar
    rw [if_neg (by simp [hc])]
    dsimp only
    rw [pcr_instruments, cpv_fst_instruments]
    rcases histLoop_map_shape s ((1 - conf) * 100) timeH p.instruments with ⟨v, hv⟩ | ⟨tk, hv⟩
    · exact absurd hv (histLoop_map_not_ok s ((1 - conf) * 100) timeH p.instruments i hmem hd v)
    · exact ⟨tk, hv⟩
  refine ⟨?_, ?_, ?_, hhist, ?_, ?_⟩
  · intro provider a b i hk
    rcases hk with h | h <;> simp [fetchData, h]
  · intro p
    simp only [computePortfolioValue, filterMap_data_filter]
  · intro s p timeH conf i hmem hd
    by_cases h1 : (computePortfolioValue p).2 = []
    · refine ⟨.noData, ?_⟩
      unfold historicalVar
      rw [if_pos ?_]
      rw [pcr_history, cpv_fst_history]
      simp [List.isEmpty_iff, h1]
    · obtain ⟨tk, hv⟩ := hhist s p timeH conf i hmem hd h1
      exact ⟨.emptyReturns tk, hv⟩
  · intro s ppf p conf timeH i hmem hd
    by_cases hstale : p.history = []
    · exact ⟨.noData, (C2_amended_no_data_iff s ppf p conf timeH).mpr hstale⟩
    · have hc : ((portfolioComputeReturns p).returns.isNone
          || (portfolioComputeReturns p).history.isEmpty) = false := by
        rw [pcr_returns_isSome, pcr_history]
        simpa [List.isEmpty_iff] using hstale
      unfold modelBuildingVar
      rw [if_neg (by simp [hc])]
      unfold mbAfterChecks
      rcases hl : (computePortfolioValue (portfolioComputeReturns p)).2.getLast? with _ | dv
      · exact ⟨.indexError, rfl⟩
      · dsimp only
        by_cases hz : dv.2 = 0
        · rw [if_pos hz]; exact ⟨.degenerateState, rfl⟩
        · rw [if_neg hz, cpv_fst_instruments, pcr_instruments]
          have hmem2 : instComputeReturns i ∈ p.instruments.map instComputeReturns :=
            List.mem_map_of_mem instComputeReturns hmem
          have hd2 : (instComputeReturns i).data = none := hd
          rcases weightsOf_cases (p.instruments.map instComputeReturns) dv.2 with
            ⟨w, hw⟩ | hw | hw
          · exact absurd hw
              (weightsOf_not_ok_of_mem_none _ dv.2 (instComputeReturns i) hmem2 hd2 w)
          · rw [hw]; exact ⟨.attributeError, rfl⟩
          · rw [hw]; exact ⟨.indexError, rfl⟩
  · intro s rng p n timeH conf i hmem hd
    unfold monteCarloVar
    unfold mcTail
    rcases hl : (computePortfolioValue (portfolioComputeReturns p)).2.getLast? with _ | dv
    · exact ⟨.indexError, rfl⟩
    · dsimp only
      rw [if_neg ?hcond]
      case hcond =>
        have hne : (computePortfolioValue (portfolioComputeReturns p)).2 ≠ [] := by
          intro hnil; rw [hnil] at hl; cases hl
        simp [cpv_fst_returns, pcr_returns_isSome, List.isEmpty_iff, hne]
      rw [cpv_fst_instruments, pcr_instruments]
      have hmem2 : instComputeReturns i ∈ p.instruments.map instComputeReturns :=
        List.mem_map_of_mem instComputeReturns hmem
      rcases weightsOf_cases (p.instruments.map instComputeReturns) dv.2 with
        ⟨w, hw⟩ | hw | hw
      · exact absurd hw
          (weightsOf_not_ok_of_mem_none _ dv.2 (instComputeReturns i) hmem2 hd w)
      · rw [hw]; exact ⟨.attributeError, rfl⟩
      · rw [hw]; exact ⟨.indexError, rfl⟩

/-- Concrete mixed portfolio: one fetched stock and one bond that was
"fetched" (no-op) and still has no data. -/
def pMixed : Portfolio :=
  ⟨[⟨.stock, "A", 1, some [(0, 1), (1, 2)], none⟩, ⟨.bond, "B", 3, none, none⟩],
   none, []⟩

theorem C9_witness :
    fetchData (fun _ _ _ => [(0, 7)]) 0 1 ⟨.bond, "B", 3, none, none⟩ =
      ⟨.bond, "B", 3, none, none⟩ ∧
    (∃ tk, (historicalVar (fun x => x) pMixed 1 (19/20)).2 =
      .error (.emptyReturns tk)) ∧
    (∃ e, (modelBuildingVar (fun x => x) (fun x => x) pMixed (19/20) 1).2 = .error e) ∧
    (∃ e, (monteCarloVar (fun x => x) (fun _ _ _ => []) pMixed 10 1 (19/20)).2 =
      .error e) :=
  ⟨C9_unpriced_instruments.1 (fun _ _ _ => [(0, 7)]) 0 1 ⟨.bond, "B", 3, none, none⟩
      (Or.inl rfl),
   C9_unpriced_instruments.2.2.2.1 (fun x => x) pMixed 1 (19/20)
      ⟨.bond, "B", 3, none, none⟩ (by decide) rfl (by decide),
   C9_unpriced_instruments.2.2.2.2.1 (fun x => x) (fun x => x) pMixed (19/20) 1
      ⟨.bond, "B", 3, none, none⟩ (by decide) rfl,
   C9_unpriced_instruments.2.2.2.2.2 (fun x => x) (fun _ _ _ => []) pMixed 10 1 (19/20)
      ⟨.bond, "B", 3, none, none⟩ (by decide) rfl⟩

/-! ### Claim C8: monotonicity in the confidence level -/

theorem interpSorted_mono (s : List ℚ) (hs : List.Sorted (· ≤ ·) s) (hne : s ≠ [])
    (i1 i2 : ℚ) (h0 : 0 ≤ i1) (h12 : i1 ≤ i2) (h2 : i2 ≤ (s.length : ℚ) - 1) :
    interpSorted s i1 ≤ interpSorted s i2 := by
  have hnpos : 0 < s.length := List.length_pos.mpr hne
  have hf1 : 0 ≤ ⌊i1⌋ := Int.floor_nonneg.mpr h0
  have hf2 : 0 ≤ ⌊i2⌋ := Int.floor_nonneg.mpr (le_trans h0 h12)
  unfold interpSorted
  set j1 := (⌊i1⌋).toNat with hj1def
  set j2 := (⌊i2⌋).toNat with hj2def
  have hc1 : (j1 : ℚ) = (⌊i1⌋ : ℚ) := by exact_mod_cast Int.toNat_of_nonneg hf1
  have hc2 : (j2 : ℚ) = (⌊i2⌋ : ℚ) := by exact_mod_cast Int.toNat_of_nonneg hf2
  have hle1 : (j1 : ℚ) ≤ i1 := by rw [hc1]; exact Int.floor_le i1
  have hlt1 : i1 < (j1 : ℚ) + 1 := by rw [hc1]; exact Int.lt_floor_add_one i1
  have hle2 : (j2 : ℚ) ≤ i2 := by rw [hc2]; exact Int.floor_le i2
  have hlt2 : i2 < (j2 : ℚ) + 1 := by rw [hc2]; exact Int.lt_floor_add_one i2
  have hj2n : j2 < s.length := by
    have h1 : ⌊i2⌋ ≤ (s.length : ℤ) - 1 := by
      have hmono := Int.floor_le_floor (α := ℚ) h2
      rwa [show ((s.length : ℚ) - 1) = (((s.length : ℤ) - 1 : ℤ) : ℚ) by push_cast; ring,
        Int.floor_intCast] at hmono
    omega
  have hj12 : j1 ≤ j2 := by
    have := Int.floor_le_floor (α := ℚ) h12
    omega
  have hj1n : j1 < s.length := lt_of_le_of_lt hj12 hj2n
  have key_hi_lo : ∀ j, j < s.length → s.getD j 0 ≤ s.getD (j + 1) (s.getD j 0) := by
    intro j hj
    by_cases hjn : j + 1 < s.length
    · rw [List.getD_eq_getElem _ _ hjn, List.getD_eq_getElem _ _ hj]
      have := hs.rel_get_of_le (a := ⟨j, hj⟩) (b := ⟨j + 1, hjn⟩)
        (by simp [Fin.mk_le_mk])
      simpa using this
    · rw [List.getD_eq_default s (s.getD j 0) (by omega : s.length ≤ j + 1)]
  have A := key_hi_lo j1 hj1n
  have C := key_hi_lo j2 hj2n
  rcases Nat.lt_or_ge j1 j2 with hlt | hge
  · have hb1 : j1 + 1 < s.length := lt_of_le_of_lt hlt hj2n
    have B : s.getD (j1 + 1) (s.getD j1 0) ≤ s.getD j2 0 := by
      rw [List.getD_eq_getElem _ _ hb1, List.getD_eq_getElem _ _ hj2n]
      have := hs.rel_get_of_le (a := ⟨j1 + 1, hb1⟩) (b := ⟨j2, hj2n⟩)
        (by simpa [Fin.mk_le_mk] using hlt)
      simpa using this
    have T1 : 0 ≤ (1 - (i1 - (j1 : ℚ))) *
        (s.getD (j1 + 1) (s.getD j1 0) - s.getD j1 0) :=
      mul_nonneg (by linarith) (by linarith)
    have T2 : 0 ≤ (i2 - (j2 : ℚ)) *
        (s.getD (j2 + 1) (s.getD j2 0) - s.getD j2 0) :=
      mul_nonneg (by linarith) (by linarith)
    nlinarith [T1, T2, B]
  · have hEq : j2 = j1 := le_antisymm hge hj12
    rw [hEq]
    have T : 0 ≤ (i2 - i1) * (s.getD (j1 + 1) (s.getD j1 0) - s.getD j1 0) :=
      mul_nonneg (by linarith) (by linarith)
    nlinarith [T]

theorem npPercentile_mono (xs : List ℚ) (q1 q2 : ℚ)
    (h0 : 0 ≤ q1) (h12 : q1 ≤ q2) (h100 : q2 ≤ 100) :
    npPercentile xs q1 ≤ npPercentile xs q2 := by
  unfold npPercentile
  by_cases hlen : (List.insertionSort (· ≤ ·) xs).length = 0
  · rw [if_pos hlen, if_pos hlen]
  · rw [if_neg hlen, if_neg hlen]
    have hs : List.Sorted (· ≤ ·) (List.insertionSort (· ≤ ·) xs) :=
      List.sorted_insertionSort _ xs
    have hne : List.insertionSort (· ≤ ·) xs ≠ [] := by
      intro h
      rw [h] at hlen
      exact hlen rfl
    have hcast : (0 : ℚ) ≤ ((List.insertionSort (· ≤ ·) xs).length : ℚ) - 1 := by
      have : 1 ≤ (List.insertionSort (· ≤ ·) xs).length := by omega
      have h1 : (1 : ℚ) ≤ ((List.insertionSort (· ≤ ·) xs).length : ℚ) := by
        exact_mod_cast this
      linarith
    apply interpSorted_mono _ hs hne
    · positivity
    · have hmul : q1 * (((List.insertionSort (· ≤ ·) xs).length : ℚ) - 1) ≤
          q2 * (((List.insertionSort (· ≤ ·) xs).length : ℚ) - 1) :=
        mul_le_mul_of_nonneg_right h12 hcast
      linarith
    · rw [div_le_iff₀ (by norm_num : (0:ℚ) < 100)]
      nlinarith [hcast]

/-- Claim C8, amended.  The original magnitude claim fails (see the
counterexample): with all-positive percentile returns the magnitude of
historical VaR shrinks as confidence grows.  What the code does guarantee is:
(1) the *signed* value of historical_var is monotonically non-decreasing in
the confidence level whenever every instrument's last_price*quantity is
non-negative (long positions) and sqrt(time_horizon) is non-negative; and
(2) the magnitude of model_building_var is monotonically non-decreasing
whenever the magnitude of the normal quantile `|InverseNormalCDF(1-c)|` is —
which is the case for confidences at or above 0.5 — since the confidence
enters the result only through that factor. -/
theorem C8_amended_monotonicity :
    (∀ (s : ℚ → ℚ) (p : Portfolio) (timeH c1 c2 v1 v2 : ℚ),
      (computePortfolioValue p).2 ≠ [] →
      (∀ i ∈ p.instruments, pctChange (i.data.getD []) ≠ []) →
      0 ≤ c1 → c1 ≤ c2 → c2 ≤ 1 → 0 ≤ s timeH →
      (∀ i ∈ p.instruments, 0 ≤ lastPriceD i * i.quantity) →
      (historicalVar s p timeH c1).2 = .ok v1 →
      (historicalVar s p timeH c2).2 = .ok v2 →
      v1 ≤ v2)
    ∧ (∀ (s ppf : ℚ → ℚ) (p : Portfolio) (conf1 conf2 timeH : ℚ) (dv : ℕ × ℚ)
        (v1 v2 : ℚ),
      p.history ≠ [] →
      (computePortfolioValue p).2.getLast? = some dv →
      dv.2 ≠ 0 →
      (∀ i ∈ p.instruments, i.data.getD [] ≠ []) →
      |ppf (1 - conf1)| ≤ |ppf (1 - conf2)| →
      (modelBuildingVar s ppf p conf1 timeH).2 = .ok v1 →
      (modelBuildingVar s ppf p conf2 timeH).2 = .ok v2 →
      |v1| ≤ |v2|) := by
  constructor
  · intro s p timeH c1 c2 v1 v2 h1 h2 hc0 hc12 hc1le hsh hq hv1 hv2
    rw [historicalVar_ok s p timeH c1 h1 h2] at hv1
    rw [historicalVar_ok s p timeH c2 h1 h2] at hv2
    injection hv1 with hv1e
    injection hv2 with hv2e
    rw [← hv1e, ← hv2e]
    apply List.sum_le_sum
    intro i hi
    unfold histTerm
    have hpr : npPercentile ((pctChange (i.data.getD [])).map Prod.snd) ((1 - c2) * 100)
        ≤ npPercentile ((pctChange (i.data.getD [])).map Prod.snd) ((1 - c1) * 100) :=
      npPercentile_mono _ _ _ (by nlinarith) (by nlinarith) (by nlinarith)
    have hlpq := hq i hi
    nlinarith [mul_nonneg (mul_nonneg hlpq (sub_nonneg.mpr hpr)) hsh]
  · intro s ppf p conf1 conf2 timeH dv v1 v2 hstale hlast hz hdata habs hv1 hv2
    rw [modelBuildingVar_ok s ppf p conf1 timeH dv hstale hlast hz hdata] at hv1
    rw [modelBuildingVar_ok s ppf p conf2 timeH dv hstale hlast hz hdata] at hv2
    injection hv1 with hv1e
    injection hv2 with hv2e
    rw [← hv1e, ← hv2e, abs_abs, abs_abs]
    have he1 : ppf (1 - conf1) * s (portfolioVariance p dv.2) * dv.2 * s timeH =
        ppf (1 - conf1) * (s (portfolioVariance p dv.2) * dv.2 * s timeH) := by ring
    have he2 : ppf (1 - conf2) * s (portfolioVariance p dv.2) * dv.2 * s timeH =
        ppf (1 - conf2) * (s (portfolioVariance p dv.2) * dv.2 * s timeH) := by ring
    rw [he1, he2, abs_mul (ppf (1 - conf1)), abs_mul (ppf (1 - conf2))]
    exact mul_le_mul_of_nonneg_right habs (abs_nonneg _)

/-- Claim C8, counterexample to the claim as stated: with fixed data (one
instrument, prices 1, 2, 6, both returns positive) and admissible
confidences 1/2 ≤ 9/10, the magnitude of historical_var *decreases* from 9
to 33/5 as the confidence increases. -/
theorem C8_counterexample :
    ((1 : ℚ)/2 ≤ 9/10) ∧ ((0 : ℚ) ≤ 1/2) ∧ ((9 : ℚ)/10 ≤ 1) ∧
    (historicalVar (fun _ => 1) pFetched 1 (1/2)).2 = .ok (-9) ∧
    (historicalVar (fun _ => 1) pFetched 1 (9/10)).2 = .ok (-33/5) ∧
    ¬ (|(-9 : ℚ)| ≤ |(-33/5 : ℚ)|) :=
  ⟨by norm_num, by norm_num, by norm_num,
   by set_option maxHeartbeats 1000000 in with_unfolding_all rfl,
   by set_option maxHeartbeats 1000000 in with_unfolding_all rfl,
   by rw [abs_of_neg (by norm_num : (-9 : ℚ) < 0),
        abs_of_neg (by norm_num : (-33/5 : ℚ) < 0)]
      norm_num⟩

theorem C8_witness :
    ((-9 : ℚ) ≤ -33/5) ∧ (|(3 : ℚ)/4| ≤ |(6 : ℚ)/5|) :=
  ⟨C8_amended_monotonicity.1 (fun _ => 1) pFetched 1 (1/2) (9/10) (-9) (-33/5)
      (by decide) (by decide) (by norm_num) (by norm_num) (by norm_num)
      (by norm_num) (by intro i hi; fin_cases hi; norm_num [lastPriceD])
      (by set_option maxHeartbeats 1000000 in with_unfolding_all rfl)
      (by set_option maxHeartbeats 1000000 in with_unfolding_all rfl),
   C8_amended_monotonicity.2 (fun x => x) (fun x => x - 1/2) pStale (3/4) (9/10) 1
      ((2, 6) : ℕ × ℚ) (3/4) (6/5)
      (by decide) (by with_unfolding_all rfl) (by norm_num) (by decide)
      (by rw [show ((fun x : ℚ => x - 1/2) (1 - 3/4)) = -1/4 by norm_num,
            show ((fun x : ℚ => x - 1/2) (1 - 9/10)) = -2/5 by norm_num,
            abs_of_neg (by norm_num : (-1/4 : ℚ) < 0),
            abs_of_neg (by norm_num : (-2/5 : ℚ) < 0)]
          norm_num)
      (by set_option maxHeartbeats 1000000 in with_unfolding_all rfl)
      (by set_option maxHeartbeats 1000000 in with_unfolding_all rfl)⟩

end RiskMgmt
